import Mathlib

/-!
Verification of the `DoubleAuction` matching and settlement engine from
`llm_agents/auction.py` (class `DoubleAuction`).

Numeric modelling: Python prices, quantities, values and costs are embedded as
exact rationals (`ℚ`), so `(bid.price + ask.price) / 2` is the exact arithmetic
midpoint.  Python's stable `list.sort(key=...)` is embedded as a stable
insertion sort on the same key ordering; a stable sort's output is uniquely
determined by the key ordering and the input order, so this is faithful.

The agent and environment collaborators (`ziagents.py`, `environment.py`) are
not part of the auction module; following the specification they are modelled
parametrically: an agent type `A` together with the capability record
`AgentModel` (identifier, goods holdings, preference schedule, order
generation, trade finalization).  Python exceptions (unknown agent id, `max`
or `min` over an empty participant list) are modelled with `Option`: `none`
is a raised exception aborting the run.
-/

namespace MarketAgents

/-- `Order`: one submitted bid or ask, as constructed by the agent
collaborators and consumed by `DoubleAuction.match_orders`. -/
structure Order where
  agent_id : Nat
  price : ℚ
  quantity : ℚ
  base_value : ℚ
  base_cost : ℚ
deriving DecidableEq, Repr

/-- `Trade`: one executed match, as constructed in `DoubleAuction.match_orders`. -/
structure Trade where
  trade_id : Nat
  buyer_id : Nat
  seller_id : Nat
  quantity : ℚ
  price : ℚ
  buyer_value : ℚ
  seller_cost : ℚ
  round : Nat
deriving DecidableEq, Repr

/-- One entry of `DoubleAuction.order_book`: the dict
`{'price': ..., 'shares': ..., 'total': ...}` appended in `match_orders`. -/
structure BookEntry where
  price : ℚ
  shares : ℚ
  total : ℚ
deriving DecidableEq, Repr

/-- The mutable fields of a `DoubleAuction` instance (`__init__`). -/
structure AuctionState where
  max_rounds : Nat
  current_round : Nat
  successful_trades : List Trade
  total_surplus_extracted : ℚ
  average_prices : List ℚ
  order_book : List BookEntry
  trade_history : List Trade
  trade_counter : Nat
deriving DecidableEq, Repr

/-- `DoubleAuction.__init__(environment, max_rounds)`: all histories empty,
`current_round = 0`, `trade_counter = 0`. -/
def initState (max_rounds : Nat) : AuctionState :=
  { max_rounds := max_rounds
    current_round := 0
    successful_trades := []
    total_surplus_extracted := 0
    average_prices := []
    order_book := []
    trade_history := []
    trade_counter := 0 }

/-- The `market_info` dict returned by `DoubleAuction._get_market_info`. -/
structure MarketInfo where
  last_trade_price : ℚ
  average_price : ℚ
  total_trades : Nat
  current_round : Nat
deriving DecidableEq, Repr

/-- Python `dict.get(k, fallback)` on a dict with `Nat` keys and `ℚ` values,
the dict being represented as its association list. -/
def dictGet (d : List (Nat × ℚ)) (k : Nat) (fallback : ℚ) : ℚ :=
  match d.find? (fun p => p.1 = k) with
  | some p => p.2
  | none => fallback

/-- Modelled from the spec: `ziagents.PreferenceSchedule` (not under the
auction module).  The spec describes it as a per-unit valuation table; the
auction code accesses it through the dict `values` and through `get_value`. -/
structure PreferenceSchedule where
  values : List (Nat × ℚ)
deriving DecidableEq, Repr

/-- Modelled from the spec: `PreferenceSchedule.get_value(k)` returns the
value the schedule assigns to unit `k` (the spec calls `get_value(1)` the
agent's first-unit valuation); absent units are worth 0. -/
def get_value (ps : PreferenceSchedule) (k : Nat) : ℚ :=
  dictGet ps.values k 0

/-- Modelled from the spec: the capabilities the auction core consumes from
each agent collaborator (`§6`): identifier, current goods holdings
(`zi_agent.allocation.goods`), preference schedule, side-specific
`generate_bid(market_info)` returning an order or nothing, and
`finalize_trade(trade)` updating the agent's own state. -/
structure AgentModel (A : Type) where
  id : A → Nat
  goods : A → ℚ
  sched : A → PreferenceSchedule
  generate_bid : A → MarketInfo → Option Order
  finalize_trade : A → Trade → A

/-- Modelled from the spec: the `Environment` collaborator exposes the
ordered collections `buyers` and `sellers` and agent lookup by id. -/
structure Environment (A : Type) where
  buyers : List A
  sellers : List A
deriving DecidableEq, Repr

/-- All participating agents of the environment. -/
def Environment.agents {A : Type} (env : Environment A) : List A :=
  env.buyers ++ env.sellers

/-- Modelled from the spec: `Environment.get_agent(id)` — lookup by
identifier, failing (`none`) if unknown. -/
def get_agent {A : Type} (M : AgentModel A) (env : Environment A) (i : Nat) :
    Option A :=
  env.agents.find? (fun a => M.id a = i)

/-- Applying `finalize_trade(trade)` to the agent object with identifier `i`:
every occurrence of that agent in the environment is updated (Python mutates
the shared agent object in place). -/
def finalize_for {A : Type} (M : AgentModel A) (env : Environment A) (i : Nat)
    (t : Trade) : Environment A :=
  { buyers := env.buyers.map (fun a => if M.id a = i then M.finalize_trade a t else a)
    sellers := env.sellers.map (fun a => if M.id a = i then M.finalize_trade a t else a) }

/-- The `while bids and asks and bids[0].price >= asks[0].price` loop of
`DoubleAuction.match_orders`, acting on the already sorted bid and ask lists.
Each iteration pops the best bid and best ask, forms the midpoint-price trade,
bumps `trade_counter` and appends the order-book entry. -/
def matchLoop (round_num : Nat) :
    List Order → List Order → AuctionState → List Trade × AuctionState
  | bid :: bids, ask :: asks, s =>
    if ask.price ≤ bid.price then
      let trade_price := (bid.price + ask.price) / 2
      let trade_quantity := min bid.quantity ask.quantity
      let trade : Trade :=
        { trade_id := s.trade_counter
          buyer_id := bid.agent_id
          seller_id := ask.agent_id
          quantity := trade_quantity
          price := trade_price
          buyer_value := bid.base_value
          seller_cost := ask.base_cost
          round := round_num }
      let s1 : AuctionState :=
        { s with
          trade_counter := s.trade_counter + 1
          order_book := s.order_book ++
            [{ price := trade_price, shares := trade_quantity,
               total := trade_price * trade_quantity }] }
      let rest := matchLoop round_num bids asks s1
      (trade :: rest.1, rest.2)
    else ([], s)
  | _, _, s => ([], s)

/-- `bids.sort(key=lambda x: x.price, reverse=True)`: stable, highest price
first. -/
def sortBids (bids : List Order) : List Order :=
  List.insertionSort (fun x y => y.price ≤ x.price) bids

/-- `asks.sort(key=lambda x: x.price)`: stable, lowest price first. -/
def sortAsks (asks : List Order) : List Order :=
  List.insertionSort (fun x y => x.price ≤ y.price) asks

/-- `DoubleAuction.match_orders(bids, asks, round_num)`: sort, then run the
matching loop.  Returns the formed trades and the updated auction state
(`trade_counter`, `order_book`). -/
def match_orders (s : AuctionState) (bids asks : List Order) (round_num : Nat) :
    List Trade × AuctionState :=
  matchLoop round_num (sortBids bids) (sortAsks asks) s

/-- The body of the `for trade in trades` loop of
`DoubleAuction.execute_trades` for a single trade: look the buyer and the
seller up (failure propagates), reject on negative surplus (`continue`),
otherwise finalize on both sides and append to the histories. -/
def executeOne {A : Type} (M : AgentModel A) (env : Environment A)
    (s : AuctionState) (t : Trade) : Option (Environment A × AuctionState) :=
  match get_agent M env t.buyer_id, get_agent M env t.seller_id with
  | some _, some _ =>
    let buyer_surplus := t.buyer_value - t.price
    let seller_surplus := t.price - t.seller_cost
    if buyer_surplus < 0 ∨ seller_surplus < 0 then
      some (env, s)
    else
      let env1 := finalize_for M env t.buyer_id t
      let env2 := finalize_for M env1 t.seller_id t
      some (env2,
        { s with
          total_surplus_extracted :=
            s.total_surplus_extracted + (buyer_surplus + seller_surplus)
          average_prices := s.average_prices ++ [t.price]
          successful_trades := s.successful_trades ++ [t]
          trade_history := s.trade_history ++ [t] })
  | _, _ => none

/-- `DoubleAuction.execute_trades(trades)`: settle the trades in order. -/
def execute_trades {A : Type} (M : AgentModel A) :
    Environment A → AuctionState → List Trade →
    Option (Environment A × AuctionState)
  | env, s, [] => some (env, s)
  | env, s, t :: ts =>
    match executeOne M env s t with
    | some (env1, s1) => execute_trades M env1 s1 ts
    | none => none

/-- `DoubleAuction._get_market_info()`. With non-empty price history:
last executed price and arithmetic mean.  With empty history: fall back to
the midpoint of the maximum buyer first-unit value and the minimum seller
first-unit value (Python `max`/`min` raise on empty participant lists,
modelled as `none`). -/
def get_market_info {A : Type} (M : AgentModel A) (env : Environment A)
    (s : AuctionState) : Option MarketInfo :=
  match s.average_prices.getLast? with
  | some lastp =>
    some { last_trade_price := lastp
           average_price := s.average_prices.sum / (s.average_prices.length : ℚ)
           total_trades := s.successful_trades.length
           current_round := s.current_round }
  | none =>
    match (env.buyers.map (fun a => get_value (M.sched a) 1)).max?,
        (env.sellers.map (fun a => get_value (M.sched a) 1)).min? with
    | some buyer_base_value, some seller_base_value =>
      some { last_trade_price := (buyer_base_value + seller_base_value) / 2
             average_price := (buyer_base_value + seller_base_value) / 2
             total_trades := s.successful_trades.length
             current_round := s.current_round }
    | _, _ => none

/-- The buyer eligibility test of `DoubleAuction.run_auction`:
`buyer.zi_agent.allocation.goods <
 buyer.zi_agent.preference_schedule.values.get(len(...values), 0)`. -/
def buyerEligible {A : Type} (M : AgentModel A) (a : A) : Prop :=
  M.goods a < dictGet (M.sched a).values (M.sched a).values.length 0

instance {A : Type} (M : AgentModel A) (a : A) : Decidable (buyerEligible M a) :=
  inferInstanceAs (Decidable (_ < _))

/-- The bid collection loop of `run_auction`: for each buyer passing the
eligibility test, ask for a bid and keep it if one is returned. -/
def collectBids {A : Type} (M : AgentModel A) (mi : MarketInfo) :
    List A → List Order
  | [] => []
  | b :: bs =>
    if buyerEligible M b then
      match M.generate_bid b mi with
      | some o => o :: collectBids M mi bs
      | none => collectBids M mi bs
    else collectBids M mi bs

/-- The ask collection loop of `run_auction`: for each seller with
`allocation.goods > 0`, ask for an ask and keep it if one is returned. -/
def collectAsks {A : Type} (M : AgentModel A) (mi : MarketInfo) :
    List A → List Order
  | [] => []
  | a :: rest =>
    if 0 < M.goods a then
      match M.generate_bid a mi with
      | some o => o :: collectAsks M mi rest
      | none => collectAsks M mi rest
    else collectAsks M mi rest

/-- One iteration of the `for round_num in range(...)` loop of
`DoubleAuction.run_auction`: set `current_round = round_num`, compute market
info, collect bids and asks, match, settle if any trades formed, then
`current_round += 1`. -/
def runRound {A : Type} (M : AgentModel A) (env : Environment A)
    (s : AuctionState) (round_num : Nat) :
    Option (Environment A × AuctionState) :=
  let s0 : AuctionState := { s with current_round := round_num }
  match get_market_info M env s0 with
  | none => none
  | some mi =>
    let bids := collectBids M mi env.buyers
    let asks := collectAsks M mi env.sellers
    let mres := match_orders s0 bids asks round_num
    let step :=
      if mres.1.isEmpty then some (env, mres.2)
      else execute_trades M env mres.2 mres.1
    match step with
    | some (env1, s1) =>
      some (env1, { s1 with current_round := s1.current_round + 1 })
    | none => none

/-- The round loop over an explicit list of round numbers (Python's
`range(self.current_round + 1, self.max_rounds + 1)`, evaluated once at loop
entry). -/
def runRounds {A : Type} (M : AgentModel A) :
    List Nat → Environment A → AuctionState →
    Option (Environment A × AuctionState)
  | [], env, s => some (env, s)
  | r :: rs, env, s =>
    match runRound M env s r with
    | some (env1, s1) => runRounds M rs env1 s1
    | none => none

/-- `DoubleAuction.run_auction()`: early return (reporting completion only)
when `current_round >= max_rounds`; otherwise run rounds
`current_round + 1 .. max_rounds`.  `summarize_results` only prints and does
not change the state. -/
def run_auction {A : Type} (M : AgentModel A) (env : Environment A)
    (s : AuctionState) : Option (Environment A × AuctionState) :=
  if s.max_rounds ≤ s.current_round then some (env, s)
  else runRounds M (List.range' (s.current_round + 1) (s.max_rounds - s.current_round)) env s

/-- `DoubleAuction.get_order_book()`. -/
def get_order_book (s : AuctionState) : List BookEntry :=
  s.order_book

/-- `DoubleAuction.get_trade_history()`. -/
def get_trade_history (s : AuctionState) : List Trade :=
  s.trade_history

/-! ## Properties of the matching loop -/

/-- The `i`-th trade formed by the matching loop pairs the `i`-th remaining
bid with the `i`-th remaining ask; those cross, and the trade carries the
midpoint price, the minimum quantity, the pair's value and cost, and the
`i`-th successive value of the trade counter. -/
theorem matchLoop_get? (r : Nat) :
    ∀ (bids asks : List Order) (s : AuctionState) (i : Nat) (t : Trade),
      (matchLoop r bids asks s).1.get? i = some t →
      ∃ bid ask, bids.get? i = some bid ∧ asks.get? i = some ask ∧
        ask.price ≤ bid.price ∧
        t = { trade_id := s.trade_counter + i
              buyer_id := bid.agent_id
              seller_id := ask.agent_id
              quantity := min bid.quantity ask.quantity
              price := (bid.price + ask.price) / 2
              buyer_value := bid.base_value
              seller_cost := ask.base_cost
              round := r }
  | [], asks, s, i, t => by simp [matchLoop]
  | bid :: bids, [], s, i, t => by simp [matchLoop]
  | bid :: bids, ask :: asks, s, i, t => by
    intro h
    rw [matchLoop] at h
    by_cases hcross : ask.price ≤ bid.price
    · rw [if_pos hcross] at h
      simp only at h
      cases i with
      | zero =>
        rw [List.get?_cons_zero] at h
        refine ⟨bid, ask, rfl, rfl, hcross, ?_⟩
        cases h
        rfl
      | succ j =>
        rw [List.get?_cons_succ] at h
        obtain ⟨bid', ask', hb, ha, hc, ht⟩ := matchLoop_get? r bids asks _ j t h
        refine ⟨bid', ask', by simpa using hb, by simpa using ha, hc, ?_⟩
        rw [ht]
        simp [Nat.add_assoc, Nat.add_comm 1 j]
    · rw [if_neg hcross] at h
      simp at h

/-- The matching loop leaves every state field except `trade_counter` and
`order_book` unchanged, and advances `trade_counter` by the number of formed
trades. -/
theorem matchLoop_state (r : Nat) :
    ∀ (bids asks : List Order) (s : AuctionState),
      (matchLoop r bids asks s).2.successful_trades = s.successful_trades ∧
      (matchLoop r bids asks s).2.trade_history = s.trade_history ∧
      (matchLoop r bids asks s).2.average_prices = s.average_prices ∧
      (matchLoop r bids asks s).2.total_surplus_extracted = s.total_surplus_extracted ∧
      (matchLoop r bids asks s).2.current_round = s.current_round ∧
      (matchLoop r bids asks s).2.max_rounds = s.max_rounds ∧
      (matchLoop r bids asks s).2.trade_counter =
        s.trade_counter + (matchLoop r bids asks s).1.length
  | [], asks, s => by simp [matchLoop]
  | bid :: bids, [], s => by simp [matchLoop]
  | bid :: bids, ask :: asks, s => by
    rw [matchLoop]
    by_cases hcross : ask.price ≤ bid.price
    · rw [if_pos hcross]
      simp only
      have ih := matchLoop_state r bids asks
        { s with
          trade_counter := s.trade_counter + 1
          order_book := s.order_book ++
            [{ price := (bid.price + ask.price) / 2,
               shares := min bid.quantity ask.quantity,
               total := (bid.price + ask.price) / 2 * min bid.quantity ask.quantity }] }
      simp only at ih
      obtain ⟨h1, h2, h3, h4, h5, h6, h7⟩ := ih
      refine ⟨h1, h2, h3, h4, h5, h6, ?_⟩
      rw [h7]
      simp only [List.length_cons]
      omega
    · rw [if_neg hcross]
      simp

/-- The matching loop forms at most as many trades as there are bids, and at
most as many as there are asks. -/
theorem matchLoop_length (r : Nat) :
    ∀ (bids asks : List Order) (s : AuctionState),
      (matchLoop r bids asks s).1.length ≤ bids.length ∧
      (matchLoop r bids asks s).1.length ≤ asks.length
  | [], asks, s => by simp [matchLoop]
  | bid :: bids, [], s => by simp [matchLoop]
  | bid :: bids, ask :: asks, s => by
    rw [matchLoop]
    by_cases hcross : ask.price ≤ bid.price
    · rw [if_pos hcross]
      simp only [List.length_cons]
      have ih := matchLoop_length r bids asks
        { s with
          trade_counter := s.trade_counter + 1
          order_book := s.order_book ++
            [{ price := (bid.price + ask.price) / 2,
               shares := min bid.quantity ask.quantity,
               total := (bid.price + ask.price) / 2 * min bid.quantity ask.quantity }] }
      omega
    · rw [if_neg hcross]
      simp

/-- Every trade returned by `match_orders` comes from a bid and an ask of the
submitted order sets, related to the trade as in `matchLoop_get?`. -/
theorem match_orders_origin (s : AuctionState) (bids asks : List Order)
    (r : Nat) (t : Trade) (ht : t ∈ (match_orders s bids asks r).1) :
    ∃ bid ∈ bids, ∃ ask ∈ asks,
      ask.price ≤ bid.price ∧
      t.price = (bid.price + ask.price) / 2 ∧
      t.quantity = min bid.quantity ask.quantity ∧
      t.buyer_id = bid.agent_id ∧ t.seller_id = ask.agent_id ∧
      t.buyer_value = bid.base_value ∧ t.seller_cost = ask.base_cost ∧
      t.round = r := by
  obtain ⟨i, hsome⟩ := List.mem_iff_get?.mp ht
  obtain ⟨bid, ask, hb, ha, hc, hteq⟩ := matchLoop_get? r _ _ s i t hsome
  have hbmem : bid ∈ sortBids bids := List.mem_iff_get?.mpr ⟨i, hb⟩
  have hamem : ask ∈ sortAsks asks := List.mem_iff_get?.mpr ⟨i, ha⟩
  refine ⟨bid, ?_, ask, ?_, hc, ?_⟩
  · exact (List.mem_insertionSort _).mp hbmem
  · exact (List.mem_insertionSort _).mp hamem
  · rw [hteq]
    refine ⟨rfl, rfl, rfl, rfl, rfl, rfl, rfl⟩

/-! ## Concrete demonstration data -/

/-- A concrete crossing bid used in witness checks. -/
def bidA : Order :=
  { agent_id := 1, price := 100, quantity := 3, base_value := 100, base_cost := 0 }

/-- A concrete crossing ask used in witness checks. -/
def askA : Order :=
  { agent_id := 2, price := 80, quantity := 2, base_value := 0, base_cost := 70 }

/-- The trade `match_orders` forms from `bidA` and `askA` in round 1. -/
def tradeA : Trade :=
  { trade_id := 0, buyer_id := 1, seller_id := 2, quantity := 2, price := 90,
    buyer_value := 100, seller_cost := 70, round := 1 }

/-- Matching the concrete pair produces exactly `tradeA`. -/
theorem match_demo : (match_orders (initState 5) [bidA] [askA] 1).1 = [tradeA] := by
  simp [match_orders, sortBids, sortAsks, List.insertionSort, matchLoop,
    bidA, askA, tradeA, initState]
  norm_num

/-! ## C1 and C2 -/

/-- C1: every trade produced by `match_orders` is formed from a bid and an ask
of the submitted order sets whose prices cross (`ask.price ≤ bid.price`), and
the trade's execution price is exactly the arithmetic midpoint of the two
prices, hence `ask.price ≤ price ≤ bid.price`. -/
theorem match_orders_price_midpoint (s : AuctionState) (bids asks : List Order)
    (r : Nat) :
    ∀ t ∈ (match_orders s bids asks r).1,
      ∃ bid ∈ bids, ∃ ask ∈ asks,
        ask.price ≤ bid.price ∧
        t.price = (bid.price + ask.price) / 2 ∧
        ask.price ≤ t.price ∧ t.price ≤ bid.price := by
  intro t ht
  obtain ⟨bid, hbm, ask, ham, hc, hp, _⟩ := match_orders_origin s bids asks r t ht
  refine ⟨bid, hbm, ask, ham, hc, hp, ?_, ?_⟩
  · rw [hp]; linarith
  · rw [hp]; linarith

/-- C1 witness: the theorem applied to the concrete matched pair
`bidA`/`askA` and the trade it forms. -/
theorem match_orders_price_midpoint_check :
    ∃ bid ∈ [bidA], ∃ ask ∈ [askA],
      ask.price ≤ bid.price ∧
      tradeA.price = (bid.price + ask.price) / 2 ∧
      ask.price ≤ tradeA.price ∧ tradeA.price ≤ bid.price :=
  match_orders_price_midpoint (initState 5) [bidA] [askA] 1 tradeA
    (by rw [match_demo]; exact List.mem_singleton.mpr rfl)

/-- C2: every trade produced by `match_orders` executes exactly
`min(bid.quantity, ask.quantity)` of its matched pair, so never more than
either side; and each trade consumes one entire bid and one entire ask, so no
more trades form than either side has orders (the leftover quantity of the
larger order is not requeued). -/
theorem match_orders_quantity_min (s : AuctionState) (bids asks : List Order)
    (r : Nat) :
    (∀ t ∈ (match_orders s bids asks r).1,
      ∃ bid ∈ bids, ∃ ask ∈ asks,
        t.quantity = min bid.quantity ask.quantity ∧
        t.quantity ≤ bid.quantity ∧ t.quantity ≤ ask.quantity) ∧
    (match_orders s bids asks r).1.length ≤ bids.length ∧
    (match_orders s bids asks r).1.length ≤ asks.length := by
  refine ⟨?_, ?_, ?_⟩
  · intro t ht
    obtain ⟨bid, hbm, ask, ham, _, _, hq, _⟩ := match_orders_origin s bids asks r t ht
    refine ⟨bid, hbm, ask, ham, hq, ?_, ?_⟩
    · rw [hq]; exact min_le_left _ _
    · rw [hq]; exact min_le_right _ _
  · exact le_of_le_of_eq (matchLoop_length r (sortBids bids) (sortAsks asks) s).1
      (List.length_insertionSort _ _)
  · exact le_of_le_of_eq (matchLoop_length r (sortBids bids) (sortAsks asks) s).2
      (List.length_insertionSort _ _)

/-- C2 witness: the theorem applied to the concrete matched pair, where the
executed quantity is `min 3 2 = 2`. -/
theorem match_orders_quantity_min_check :
    (∃ bid ∈ [bidA], ∃ ask ∈ [askA],
       tradeA.quantity = min bid.quantity ask.quantity ∧
       tradeA.quantity ≤ bid.quantity ∧ tradeA.quantity ≤ ask.quantity) ∧
    (match_orders (initState 5) [bidA] [askA] 1).1.length ≤ 1 :=
  ⟨(match_orders_quantity_min (initState 5) [bidA] [askA] 1).1 tradeA
      (by rw [match_demo]; exact List.mem_singleton.mpr rfl),
    by simpa using (match_orders_quantity_min (initState 5) [bidA] [askA] 1).2.1⟩

/-! ## Properties of settlement -/

/-- A single settlement step that did not raise found both agents. -/
theorem executeOne_some_agents {A : Type} {M : AgentModel A}
    {env env' : Environment A} {s s' : AuctionState} {t : Trade}
    (h : executeOne M env s t = some (env', s')) :
    (get_agent M env t.buyer_id).isSome ∧ (get_agent M env t.seller_id).isSome := by
  rw [executeOne] at h
  split at h
  · next heq1 heq2 => rw [heq1, heq2]; exact ⟨rfl, rfl⟩
  · exact absurd h (by simp)

/-- A trade with a negative buyer or seller surplus is rejected: the
settlement step leaves the environment (no `finalize_trade` call) and the
whole auction state unchanged. -/
theorem executeOne_of_neg {A : Type} {M : AgentModel A} {env : Environment A}
    (s : AuctionState) {t : Trade}
    (hb : (get_agent M env t.buyer_id).isSome)
    (hs2 : (get_agent M env t.seller_id).isSome)
    (hneg : t.buyer_value - t.price < 0 ∨ t.price - t.seller_cost < 0) :
    executeOne M env s t = some (env, s) := by
  obtain ⟨buyer, hbe⟩ := Option.isSome_iff_exists.mp hb
  obtain ⟨seller, hse⟩ := Option.isSome_iff_exists.mp hs2
  rw [executeOne, hbe, hse]
  simp only
  rw [if_pos hneg]

/-- Case analysis of a settlement step that returned: either the trade was
rejected and nothing changed, or both surpluses are non-negative and the
trade was applied to both agents and appended to all three histories. -/
theorem executeOne_cases {A : Type} {M : AgentModel A}
    {env env' : Environment A} {s s' : AuctionState} {t : Trade}
    (h : executeOne M env s t = some (env', s')) :
    (env' = env ∧ s' = s) ∨
    (0 ≤ t.buyer_value - t.price ∧ 0 ≤ t.price - t.seller_cost ∧
     env' = finalize_for M (finalize_for M env t.buyer_id t) t.seller_id t ∧
     s' = { s with
            total_surplus_extracted := s.total_surplus_extracted +
              ((t.buyer_value - t.price) + (t.price - t.seller_cost))
            average_prices := s.average_prices ++ [t.price]
            successful_trades := s.successful_trades ++ [t]
            trade_history := s.trade_history ++ [t] }) := by
  rw [executeOne] at h
  split at h
  · simp only at h
    split at h
    · left
      simp only [Option.some.injEq, Prod.mk.injEq] at h
      exact ⟨h.1.symm, h.2.symm⟩
    · next hneg =>
      right
      push_neg at hneg
      simp only [Option.some.injEq, Prod.mk.injEq] at h
      exact ⟨hneg.1, hneg.2, h.1.symm, h.2.symm⟩
  · exact absurd h (by simp)

/-- Generic invariant propagation along a settlement run: any property of the
state together with the still-pending trades that is preserved by a single
settlement step holds at the end. -/
theorem execute_trades_fold {A : Type} (M : AgentModel A)
    (P : AuctionState → List Trade → Prop)
    (hstep : ∀ env s t ts env' s', executeOne M env s t = some (env', s') →
       P s (t :: ts) → P s' ts) :
    ∀ (ts : List Trade) (env : Environment A) (s : AuctionState)
      (env' : Environment A) (s' : AuctionState),
      execute_trades M env s ts = some (env', s') → P s ts → P s' []
  | [], env, s, env', s' => by
    intro h hP
    rw [execute_trades] at h
    simp only [Option.some.injEq, Prod.mk.injEq] at h
    rw [← h.2]
    exact hP
  | t :: ts, env, s, env', s' => by
    intro h hP
    rw [execute_trades] at h
    cases hstep1 : executeOne M env s t with
    | none => rw [hstep1] at h; exact absurd h (by simp)
    | some p =>
      obtain ⟨env1, s1⟩ := p
      rw [hstep1] at h
      simp only at h
      exact execute_trades_fold M P hstep ts env1 s1 env' s' h
        (hstep env s t ts env1 s1 hstep1 hP)

/-- A settlement run that returned leaves `current_round`, `max_rounds` and
`trade_counter` unchanged. -/
theorem execute_trades_frame {A : Type} {M : AgentModel A}
    {env env' : Environment A} {s s' : AuctionState} {ts : List Trade}
    (h : execute_trades M env s ts = some (env', s')) :
    s'.current_round = s.current_round ∧ s'.max_rounds = s.max_rounds ∧
    s'.trade_counter = s.trade_counter := by
  have := execute_trades_fold M
    (fun st _ => st.current_round = s.current_round ∧
      st.max_rounds = s.max_rounds ∧ st.trade_counter = s.trade_counter)
    (fun env0 s0 t ts0 env1 s1 h1 hP => by
      rcases executeOne_cases h1 with ⟨_, rfl⟩ | ⟨_, _, _, rfl⟩
      · exact hP
      · exact hP)
    ts env s env' s' h ⟨rfl, rfl, rfl⟩
  exact this

/-! ## C3 and C9 -/

/-- C3: settlement rejects any trade whose buyer surplus or seller surplus is
negative — neither agent is finalized and every state field is unchanged by
that trade — and consequently every trade present in `successful_trades` has
non-negative buyer and seller surplus. -/
theorem execute_trades_surplus_guard {A : Type} (M : AgentModel A) :
    (∀ (env : Environment A) (s : AuctionState) (t : Trade),
       (get_agent M env t.buyer_id).isSome →
       (get_agent M env t.seller_id).isSome →
       (t.buyer_value - t.price < 0 ∨ t.price - t.seller_cost < 0) →
       executeOne M env s t = some (env, s)) ∧
    (∀ (env : Environment A) (s : AuctionState) (ts : List Trade)
       (env' : Environment A) (s' : AuctionState),
       execute_trades M env s ts = some (env', s') →
       (∀ t ∈ s.successful_trades,
          0 ≤ t.buyer_value - t.price ∧ 0 ≤ t.price - t.seller_cost) →
       ∀ t ∈ s'.successful_trades,
          0 ≤ t.buyer_value - t.price ∧ 0 ≤ t.price - t.seller_cost) := by
  constructor
  · intro env s t hb hs2 hneg
    exact executeOne_of_neg s hb hs2 hneg
  · intro env s ts env' s' h hs0
    exact execute_trades_fold M
      (fun st _ => ∀ t ∈ st.successful_trades,
         0 ≤ t.buyer_value - t.price ∧ 0 ≤ t.price - t.seller_cost)
      (fun env0 s0 t ts0 env1 s1 h1 hP => by
        rcases executeOne_cases h1 with ⟨_, rfl⟩ | ⟨hb0, hs0', _, rfl⟩
        · exact hP
        · intro u hu
          simp only [List.mem_append, List.mem_singleton] at hu
          rcases hu with hu | rfl
          · exact hP u hu
          · exact ⟨hb0, hs0'⟩)
      ts env s env' s' h hs0

/-- The identity-agent model used for concrete settlement checks: agents are
their own identifiers and `finalize_trade` does not change them. -/
def idModel : AgentModel Nat where
  id := fun a => a
  goods := fun _ => 0
  sched := fun _ => { values := [] }
  generate_bid := fun _ _ => none
  finalize_trade := fun a _ => a

/-- A concrete environment holding buyer `1` and seller `2`. -/
def demoEnvC : Environment Nat := { buyers := [1], sellers := [2] }

/-- A concrete trade whose buyer surplus `10 - 90` is negative. -/
def tradeR : Trade :=
  { trade_id := 0, buyer_id := 1, seller_id := 2, quantity := 1, price := 90,
    buyer_value := 10, seller_cost := 70, round := 1 }

/-- C3 witness: the guard applied to the negative-surplus trade `tradeR`
(step untouched) and to the settlement of the well-formed trade list
`[tradeA]` from the initial state. -/
theorem execute_trades_surplus_guard_check :
    executeOne idModel demoEnvC (initState 3) tradeR = some (demoEnvC, initState 3) ∧
    (∀ t ∈ (initState 3).successful_trades,
       0 ≤ t.buyer_value - t.price ∧ 0 ≤ t.price - t.seller_cost) := by
  constructor
  · exact (execute_trades_surplus_guard idModel).1 demoEnvC (initState 3) tradeR
      (by decide) (by decide) (Or.inl (by norm_num [tradeR]))
  · exact (execute_trades_surplus_guard idModel).2 demoEnvC (initState 3) []
      demoEnvC (initState 3) rfl (by simp [initState])

/-- C9: a settlement call preserves
`len(successful_trades) = len(average_prices)`: a settled trade appends one
entry to each list and a rejected trade appends to neither. -/
theorem execute_trades_history_lengths {A : Type} (M : AgentModel A)
    (env : Environment A) (s : AuctionState) (ts : List Trade)
    (env' : Environment A) (s' : AuctionState)
    (h : execute_trades M env s ts = some (env', s'))
    (hlen : s.successful_trades.length = s.average_prices.length) :
    s'.successful_trades.length = s'.average_prices.length := by
  exact execute_trades_fold M
    (fun st _ => st.successful_trades.length = st.average_prices.length)
    (fun env0 s0 t ts0 env1 s1 h1 hP => by
      rcases executeOne_cases h1 with ⟨_, rfl⟩ | ⟨_, _, _, rfl⟩
      · exact hP
      · simp only [List.length_append, List.length_singleton]
        omega)
    ts env s env' s' h hlen

/-- The state after settling `tradeA` from `initState 3`. -/
def stateAfterA : AuctionState :=
  { max_rounds := 3
    current_round := 0
    successful_trades := [tradeA]
    total_surplus_extracted := 30
    average_prices := [90]
    order_book := []
    trade_history := [tradeA]
    trade_counter := 0 }

/-- Settling the concrete trade `tradeA` succeeds and produces
`stateAfterA`. -/
theorem exec_demo :
    execute_trades idModel demoEnvC (initState 3) [tradeA] =
      some (demoEnvC, stateAfterA) := by
  simp [execute_trades, executeOne, get_agent, Environment.agents, finalize_for,
    idModel, demoEnvC, initState, tradeA, stateAfterA]
  norm_num

/-- C9 witness: the theorem applied to the settlement of `[tradeA]`. -/
theorem execute_trades_history_lengths_check :
    stateAfterA.successful_trades.length = stateAfterA.average_prices.length :=
  execute_trades_history_lengths idModel demoEnvC (initState 3) [tradeA]
    demoEnvC stateAfterA exec_demo rfl

/-! ## Properties of the round loop -/

/-- `match_orders` restated field by field: every state field except
`trade_counter` and `order_book` is unchanged, and the counter advances by
the number of formed trades. -/
theorem match_orders_state (s : AuctionState) (bids asks : List Order) (r : Nat) :
    (match_orders s bids asks r).2.successful_trades = s.successful_trades ∧
    (match_orders s bids asks r).2.trade_history = s.trade_history ∧
    (match_orders s bids asks r).2.average_prices = s.average_prices ∧
    (match_orders s bids asks r).2.total_surplus_extracted = s.total_surplus_extracted ∧
    (match_orders s bids asks r).2.current_round = s.current_round ∧
    (match_orders s bids asks r).2.max_rounds = s.max_rounds ∧
    (match_orders s bids asks r).2.trade_counter =
      s.trade_counter + (match_orders s bids asks r).1.length :=
  matchLoop_state r (sortBids bids) (sortAsks asks) s

/-- Elimination principle for one completed round: it computed market info on
the state with `current_round = round_num`, matched the collected bids and
asks, settled if (and only if) trades formed, and finally incremented
`current_round` once more. -/
theorem runRound_some {A : Type} {M : AgentModel A} {env env' : Environment A}
    {s s' : AuctionState} {r : Nat}
    (h : runRound M env s r = some (env', s')) :
    ∃ mi res env1 s1,
      get_market_info M env { s with current_round := r } = some mi ∧
      res = match_orders { s with current_round := r }
              (collectBids M mi env.buyers) (collectAsks M mi env.sellers) r ∧
      ((res.1.isEmpty = true ∧ env1 = env ∧ s1 = res.2) ∨
       (res.1.isEmpty = false ∧ execute_trades M env res.2 res.1 = some (env1, s1))) ∧
      env' = env1 ∧ s' = { s1 with current_round := s1.current_round + 1 } := by
  rw [runRound] at h
  cases hmi : get_market_info M env { s with current_round := r } with
  | none => rw [hmi] at h; exact absurd h (by simp)
  | some mi =>
    rw [hmi] at h
    simp only at h
    split at h
    · next env1 s1 heq =>
      simp only [Option.some.injEq, Prod.mk.injEq] at h
      split at heq
      · next hc =>
        simp only [Option.some.injEq, Prod.mk.injEq] at heq
        exact ⟨mi, _, env1, s1, rfl, rfl, Or.inl ⟨hc, heq.1.symm, heq.2.symm⟩,
          h.1.symm, h.2.symm⟩
      · next hc =>
        exact ⟨mi, _, env1, s1, rfl, rfl, Or.inr ⟨by simpa using hc, heq⟩,
          h.1.symm, h.2.symm⟩
    · exact absurd h (by simp)

/-- A completed round always ends with `current_round = round_num + 1`
(the loop body both assigns `current_round = round_num` and increments it),
and does not change `max_rounds`. -/
theorem runRound_current {A : Type} {M : AgentModel A} {env env' : Environment A}
    {s s' : AuctionState} {r : Nat}
    (h : runRound M env s r = some (env', s')) :
    s'.current_round = r + 1 ∧ s'.max_rounds = s.max_rounds := by
  obtain ⟨mi, res, env1, s1, hmi, hres, hbranch, henv, hs'⟩ := runRound_some h
  have hs1 : s1.current_round = r ∧ s1.max_rounds = s.max_rounds := by
    rcases hbranch with ⟨_, _, rfl⟩ | ⟨_, hex⟩
    · rw [hres]
      have hm := match_orders_state { s with current_round := r }
        (collectBids M mi env.buyers) (collectAsks M mi env.sellers) r
      exact ⟨hm.2.2.2.2.1, hm.2.2.2.2.2.1⟩
    · have hf := execute_trades_frame hex
      have hm := match_orders_state { s with current_round := r }
        (collectBids M mi env.buyers) (collectAsks M mi env.sellers) r
      rw [hres] at hf
      exact ⟨hf.1.trans hm.2.2.2.2.1, (hf.2.1).trans hm.2.2.2.2.2.1⟩
  rw [hs']
  simp [hs1.1, hs1.2]

/-- After the round loop runs a non-empty list of rounds, `current_round` is
the last round number plus one. -/
theorem runRounds_concat {A : Type} (M : AgentModel A) :
    ∀ (l : List Nat) (r : Nat) (env : Environment A) (s : AuctionState)
      (env' : Environment A) (s' : AuctionState),
      runRounds M (l ++ [r]) env s = some (env', s') → s'.current_round = r + 1
  | [], r, env, s, env', s' => by
    intro h
    rw [List.nil_append, runRounds] at h
    cases hr : runRound M env s r with
    | none => rw [hr] at h; exact absurd h (by simp)
    | some p =>
      obtain ⟨env1, s1⟩ := p
      rw [hr] at h
      simp only at h
      rw [runRounds] at h
      simp only [Option.some.injEq, Prod.mk.injEq] at h
      rw [← h.2]
      exact (runRound_current hr).1
  | r0 :: l, r, env, s, env', s' => by
    intro h
    rw [List.cons_append, runRounds] at h
    cases hr : runRound M env s r0 with
    | none => rw [hr] at h; exact absurd h (by simp)
    | some p =>
      obtain ⟨env1, s1⟩ := p
      rw [hr] at h
      simp only at h
      exact runRounds_concat M l r env1 s1 env' s' h

/-! ## C4 and C7 -/

/-- C4 (refuting the claimed invariant): whenever `run_auction` actually runs
its round loop (`current_round < max_rounds`) and completes, the final state
has `current_round = max_rounds + 1`, strictly greater than `max_rounds`:
the loop body assigns `current_round = round_num` and then also increments
it. -/
theorem run_auction_final_round_bug {A : Type} (M : AgentModel A)
    (env : Environment A) (s : AuctionState)
    (env' : Environment A) (s' : AuctionState)
    (hlt : s.current_round < s.max_rounds)
    (h : run_auction M env s = some (env', s')) :
    s'.current_round = s.max_rounds + 1 ∧ s.max_rounds < s'.current_round := by
  rw [run_auction, if_neg (not_le.mpr hlt)] at h
  have hsplit : s.max_rounds - s.current_round =
      (s.max_rounds - s.current_round - 1) + 1 := by omega
  rw [hsplit, List.range'_concat] at h
  have hlast : s.current_round + 1 + 1 * (s.max_rounds - s.current_round - 1) =
      s.max_rounds := by omega
  rw [hlast] at h
  have hfin := runRounds_concat M _ _ _ _ _ _ h
  exact ⟨hfin, by omega⟩

/-- A one-round run with no orders generated: the auction completes and ends
with `current_round = 2` although `max_rounds = 1`. -/
theorem quiet_run :
    run_auction idModel demoEnvC (initState 1) =
      some (demoEnvC, { initState 1 with current_round := 2 }) := by
  simp [run_auction, runRounds, runRound, get_market_info, initState,
    idModel, demoEnvC, collectBids, collectAsks, buyerEligible, dictGet,
    get_value, match_orders, sortBids, sortAsks, List.insertionSort, matchLoop]

/-- C4 witness: the bug theorem applied to the concrete quiet one-round run,
whose final `current_round` is `2 = max_rounds + 1`. -/
theorem run_auction_final_round_bug_check :
    ({ initState 1 with current_round := 2 } : AuctionState).current_round =
      (initState 1).max_rounds + 1 ∧
    (initState 1).max_rounds <
      ({ initState 1 with current_round := 2 } : AuctionState).current_round :=
  run_auction_final_round_bug idModel demoEnvC (initState 1) demoEnvC
    { initState 1 with current_round := 2 } (by decide) quiet_run

/-- C7: calling `run_auction` when `current_round >= max_rounds` only reports
completion: it raises nothing and returns with the environment and every
field of the auction state unchanged. -/
theorem run_auction_noop_when_complete {A : Type} (M : AgentModel A)
    (env : Environment A) (s : AuctionState)
    (h : s.max_rounds ≤ s.current_round) :
    run_auction M env s = some (env, s) := by
  rw [run_auction, if_pos h]

/-- C7 witness: the no-op theorem applied at `current_round = max_rounds = 0`. -/
theorem run_auction_noop_when_complete_check :
    run_auction idModel demoEnvC (initState 0) = some (demoEnvC, initState 0) :=
  run_auction_noop_when_complete idModel demoEnvC (initState 0) (by decide)

/-! ## Preservation through whole runs -/

/-- Settlement-run preservation of a state property preserved by each
settlement step. -/
theorem execute_trades_pres {A : Type} (M : AgentModel A)
    (P : AuctionState → Prop)
    (hstep : ∀ env s t env' s', executeOne M env s t = some (env', s') →
      P s → P s') :
    ∀ (ts : List Trade) (env : Environment A) (s : AuctionState)
      (env' : Environment A) (s' : AuctionState),
      execute_trades M env s ts = some (env', s') → P s → P s' :=
  fun ts env s env' s' h hP =>
    execute_trades_fold M (fun st _ => P st)
      (fun e s0 t _ts0 e1 s1 h1 hp => hstep e s0 t e1 s1 h1 hp)
      ts env s env' s' h hP

/-- Round preservation of a state property preserved by setting
`current_round`, by matching, and by each settlement step. -/
theorem runRound_pres {A : Type} {M : AgentModel A} (P : AuctionState → Prop)
    (hcur : ∀ s n, P s → P { s with current_round := n })
    (hmatch : ∀ s bids asks r, P s → P (match_orders s bids asks r).2)
    (hexec : ∀ env s t env' s', executeOne M env s t = some (env', s') →
      P s → P s') :
    ∀ (env : Environment A) (s : AuctionState) (r : Nat)
      (env' : Environment A) (s' : AuctionState),
      runRound M env s r = some (env', s') → P s → P s' := by
  intro env s r env' s' h hP
  obtain ⟨mi, res, env1, s1, hmi, hres, hbranch, henv, hs'⟩ := runRound_some h
  have hP1 : P s1 := by
    rcases hbranch with ⟨_, _, rfl⟩ | ⟨_, hex⟩
    · rw [hres]; exact hmatch _ _ _ _ (hcur s r hP)
    · refine execute_trades_pres M P hexec _ _ _ _ _ hex ?_
      rw [hres]; exact hmatch _ _ _ _ (hcur s r hP)
  rw [hs']
  exact hcur s1 _ hP1

/-- Loop preservation of a state property preserved by every completed
round. -/
theorem runRounds_pres {A : Type} {M : AgentModel A} (P : AuctionState → Prop)
    (hstep : ∀ env s r env' s', runRound M env s r = some (env', s') →
      P s → P s') :
    ∀ (l : List Nat) (env : Environment A) (s : AuctionState)
      (env' : Environment A) (s' : AuctionState),
      runRounds M l env s = some (env', s') → P s → P s'
  | [], env, s, env', s' => by
    intro h hP
    rw [runRounds] at h
    simp only [Option.some.injEq, Prod.mk.injEq] at h
    rw [← h.2]
    exact hP
  | r :: l, env, s, env', s' => by
    intro h hP
    rw [runRounds] at h
    cases hr : runRound M env s r with
    | none => rw [hr] at h; exact absurd h (by simp)
    | some p =>
      obtain ⟨e1, s1⟩ := p
      rw [hr] at h
      simp only at h
      exact runRounds_pres P hstep l e1 s1 env' s' h (hstep env s r e1 s1 hr hP)

/-! ## C10 -/

/-- C10: `get_trade_history` always returns exactly `successful_trades`: the
two lists start out equal (both empty), matching changes neither, every
settlement appends each settled trade to both and nothing else to either,
and whole auction runs preserve the equality. -/
theorem trade_history_matches_successful {A : Type} (M : AgentModel A) :
    (∀ m : Nat, get_trade_history (initState m) = (initState m).successful_trades) ∧
    (∀ (s : AuctionState) (bids asks : List Order) (r : Nat),
       get_trade_history s = s.successful_trades →
       get_trade_history (match_orders s bids asks r).2 =
         (match_orders s bids asks r).2.successful_trades) ∧
    (∀ (env : Environment A) (s : AuctionState) (ts : List Trade)
       (env' : Environment A) (s' : AuctionState),
       execute_trades M env s ts = some (env', s') →
       get_trade_history s = s.successful_trades →
       get_trade_history s' = s'.successful_trades) ∧
    (∀ (env : Environment A) (s : AuctionState)
       (env' : Environment A) (s' : AuctionState),
       run_auction M env s = some (env', s') →
       get_trade_history s = s.successful_trades →
       get_trade_history s' = s'.successful_trades) := by
  have hmatch : ∀ (s : AuctionState) (bids asks : List Order) (r : Nat),
      get_trade_history s = s.successful_trades →
      get_trade_history (match_orders s bids asks r).2 =
        (match_orders s bids asks r).2.successful_trades := by
    intro s bids asks r hP
    have hm := match_orders_state s bids asks r
    rw [get_trade_history] at hP ⊢
    rw [hm.1, hm.2.1]
    exact hP
  have hexec : ∀ (env : Environment A) (s : AuctionState) (t : Trade)
      (env' : Environment A) (s' : AuctionState),
      executeOne M env s t = some (env', s') →
      get_trade_history s = s.successful_trades →
      get_trade_history s' = s'.successful_trades := by
    intro env s t env' s' h1 hP
    rcases executeOne_cases h1 with ⟨_, rfl⟩ | ⟨_, _, _, rfl⟩
    · exact hP
    · rw [get_trade_history] at hP ⊢
      simp only
      rw [hP]
  refine ⟨fun m => rfl, hmatch, ?_, ?_⟩
  · intro env s ts env' s' h hP
    exact execute_trades_pres M _ hexec ts env s env' s' h hP
  · intro env s env' s' h hP
    rw [run_auction] at h
    by_cases hend : s.max_rounds ≤ s.current_round
    · rw [if_pos hend] at h
      simp only [Option.some.injEq, Prod.mk.injEq] at h
      rw [← h.2]
      exact hP
    · rw [if_neg hend] at h
      exact runRounds_pres _
        (runRound_pres _ (fun s0 n hp => hp) hmatch hexec)
        _ env s env' s' h hP

/-- C10 witness: the equality holds initially, after the concrete settlement
of `[tradeA]`, and after the concrete quiet one-round run. -/
theorem trade_history_matches_successful_check :
    get_trade_history stateAfterA = stateAfterA.successful_trades ∧
    get_trade_history ({ initState 1 with current_round := 2 } : AuctionState) =
      ({ initState 1 with current_round := 2 } : AuctionState).successful_trades :=
  ⟨(trade_history_matches_successful idModel).2.2.1 demoEnvC (initState 3)
      [tradeA] demoEnvC stateAfterA exec_demo rfl,
    (trade_history_matches_successful idModel).2.2.2 demoEnvC (initState 1)
      demoEnvC { initState 1 with current_round := 2 } quiet_run rfl⟩

/-! ## C5: eligibility predicates -/

/-- Modelled from the spec: the "maximum tracked (evaluable) unit" of a
preference schedule — the largest unit index the schedule tracks. -/
def maxTrackedUnit (ps : PreferenceSchedule) : Nat :=
  (ps.values.map Prod.fst).foldr max 0

/-- The buyer eligibility predicate as the spec states it: the buyer's
current allocation of goods is below its preference schedule's maximum
tracked unit. -/
def specBuyerEligible {A : Type} (M : AgentModel A) (a : A) : Prop :=
  M.goods a < (maxTrackedUnit (M.sched a) : ℚ)

instance {A : Type} (M : AgentModel A) (a : A) :
    Decidable (specBuyerEligible M a) :=
  inferInstanceAs (Decidable (_ < _))

/-- An agent model with one buyer holding 50 units of goods whose schedule
tracks only unit 1 (at value 100), and who always quotes `bidA`. -/
def richBuyer : AgentModel Nat where
  id := fun a => a
  goods := fun _ => 50
  sched := fun _ => { values := [(1, 100)] }
  generate_bid := fun _ _ => some bidA
  finalize_trade := fun a _ => a

/-- An arbitrary market info record (ignored by `richBuyer`). -/
def miZero : MarketInfo :=
  { last_trade_price := 0, average_price := 0, total_trades := 0,
    current_round := 0 }

/-- C5 counterexample: the round loop requests (and receives) a bid from the
buyer although its goods (50) are not below its schedule's maximum tracked
unit (1) — the code compares goods against the *value* stored under key
`len(values)`, here 100, not against the unit index. -/
theorem buyer_eligibility_counterexample :
    collectBids richBuyer miZero [7] = [bidA] ∧
    ¬ specBuyerEligible richBuyer 7 := by
  constructor
  · rw [collectBids, if_pos]
    · rfl
    · show (50 : ℚ) < dictGet [(1, 100)] 1 0
      norm_num [dictGet]
  · show ¬ (50 : ℚ) < ((maxTrackedUnit { values := [(1, 100)] } : Nat) : ℚ)
    norm_num [maxTrackedUnit]

/-- C5 (amended): in each round a bid is requested from a buyer exactly when
its goods are below the value its preference schedule stores under the key
`len(values)` (0 when that key is absent) — not the maximum tracked unit
index — and an ask is requested from a seller exactly when its goods
holdings are positive; agents that decline to quote are skipped. -/
theorem collect_orders_eligibility {A : Type} (M : AgentModel A)
    (mi : MarketInfo) :
    (∀ l : List A, collectBids M mi l =
      (l.filter (fun b => decide (buyerEligible M b))).filterMap
        (fun b => M.generate_bid b mi)) ∧
    (∀ l : List A, collectAsks M mi l =
      (l.filter (fun a => decide (0 < M.goods a))).filterMap
        (fun a => M.generate_bid a mi)) := by
  constructor
  · intro l
    induction l with
    | nil => rfl
    | cons b bs ih =>
      by_cases hb : buyerEligible M b
      · cases hgen : M.generate_bid b mi with
        | none => rw [collectBids, if_pos hb, hgen]
                  simp [List.filter_cons, hb, List.filterMap_cons, hgen, ih]
        | some o => rw [collectBids, if_pos hb, hgen]
                    simp [List.filter_cons, hb, List.filterMap_cons, hgen, ih]
      · rw [collectBids, if_neg hb]
        simp [List.filter_cons, hb, ih]
  · intro l
    induction l with
    | nil => rfl
    | cons a rest ih =>
      by_cases ha : 0 < M.goods a
      · cases hgen : M.generate_bid a mi with
        | none => rw [collectAsks, if_pos ha, hgen]
                  simp [List.filter_cons, ha, List.filterMap_cons, hgen, ih]
        | some o => rw [collectAsks, if_pos ha, hgen]
                    simp [List.filter_cons, ha, List.filterMap_cons, hgen, ih]
      · rw [collectAsks, if_neg ha]
        simp [List.filter_cons, ha, ih]

/-! ## C6 -/

/-- C6: with an empty trade history `get_market_info` falls back for both
`last_trade_price` and `average_price` to the midpoint of the maximum buyer
first-unit value and the minimum seller first-unit value over the current
participants; once a trade has settled it returns the most recent executed
price and the arithmetic mean of all executed prices to date. -/
theorem market_info_spec {A : Type} (M : AgentModel A) (env : Environment A)
    (s : AuctionState) :
    (∀ mi : MarketInfo, s.average_prices = [] →
       get_market_info M env s = some mi →
       mi.last_trade_price = mi.average_price ∧
       ∃ bmax smin : ℚ,
         bmax ∈ env.buyers.map (fun a => get_value (M.sched a) 1) ∧
         (∀ v ∈ env.buyers.map (fun a => get_value (M.sched a) 1), v ≤ bmax) ∧
         smin ∈ env.sellers.map (fun a => get_value (M.sched a) 1) ∧
         (∀ v ∈ env.sellers.map (fun a => get_value (M.sched a) 1), smin ≤ v) ∧
         mi.last_trade_price = (bmax + smin) / 2) ∧
    (∀ (ps : List ℚ) (p : ℚ), s.average_prices = ps ++ [p] →
       get_market_info M env s =
         some { last_trade_price := p
                average_price := s.average_prices.sum / (s.average_prices.length : ℚ)
                total_trades := s.successful_trades.length
                current_round := s.current_round }) := by
  constructor
  · intro mi hemp h
    rw [get_market_info, hemp] at h
    simp only [List.getLast?_nil] at h
    cases hmax : (env.buyers.map fun a => get_value (M.sched a) 1).max? with
    | none => rw [hmax] at h; exact absurd h (by simp)
    | some bmax =>
      cases hmin : (env.sellers.map fun a => get_value (M.sched a) 1).min? with
      | none => rw [hmax, hmin] at h; exact absurd h (by simp)
      | some smin =>
        rw [hmax, hmin] at h
        simp only [Option.some.injEq] at h
        rw [← h]
        refine ⟨rfl, bmax, smin,
          List.max?_mem (fun x y => max_choice x y) hmax,
          fun v hv => (List.max?_le_iff (fun _ _ _ => max_le_iff) hmax).mp le_rfl v hv,
          List.min?_mem (fun x y => min_choice x y) hmin,
          fun v hv => (List.le_min?_iff (fun _ _ _ => le_min_iff) hmin).mp le_rfl v hv,
          rfl⟩
  · intro ps p hlist
    rw [get_market_info, hlist, List.getLast?_concat]

/-- The concrete fallback market info for `idModel` over `demoEnvC`: no agent
values anything, so the estimate is `(0 + 0) / 2 = 0`. -/
theorem mi_demo :
    get_market_info idModel demoEnvC (initState 1) =
      some { last_trade_price := 0, average_price := 0, total_trades := 0,
             current_round := 0 } := by
  simp [get_market_info, idModel, demoEnvC, initState, get_value, dictGet]

/-- C6 witness: the fallback case applied to the concrete empty-history
state, and the history case applied to the state after settling `tradeA`. -/
theorem market_info_spec_check :
    (({ last_trade_price := 0, average_price := 0, total_trades := 0,
        current_round := 0 } : MarketInfo).last_trade_price =
      ({ last_trade_price := 0, average_price := 0, total_trades := 0,
         current_round := 0 } : MarketInfo).average_price ∧
     ∃ bmax smin : ℚ,
       bmax ∈ demoEnvC.buyers.map (fun a => get_value (idModel.sched a) 1) ∧
       (∀ v ∈ demoEnvC.buyers.map (fun a => get_value (idModel.sched a) 1), v ≤ bmax) ∧
       smin ∈ demoEnvC.sellers.map (fun a => get_value (idModel.sched a) 1) ∧
       (∀ v ∈ demoEnvC.sellers.map (fun a => get_value (idModel.sched a) 1), smin ≤ v) ∧
       ({ last_trade_price := 0, average_price := 0, total_trades := 0,
          current_round := 0 } : MarketInfo).last_trade_price = (bmax + smin) / 2) ∧
    get_market_info idModel demoEnvC stateAfterA =
      some { last_trade_price := 90
             average_price := stateAfterA.average_prices.sum /
               (stateAfterA.average_prices.length : ℚ)
             total_trades := stateAfterA.successful_trades.length
             current_round := stateAfterA.current_round } :=
  ⟨(market_info_spec idModel demoEnvC (initState 1)).1
      { last_trade_price := 0, average_price := 0, total_trades := 0,
        current_round := 0 } rfl mi_demo,
    (market_info_spec idModel demoEnvC stateAfterA).2 [] 90 rfl⟩

/-! ## C8: trade id uniqueness and monotonicity -/

/-- The trade-id invariant: ids in `successful_trades` are strictly
increasing in formation order and below the fresh-id counter. -/
def tradeIdsOK (s : AuctionState) : Prop :=
  List.Pairwise (fun a b => a.trade_id < b.trade_id) s.successful_trades ∧
  ∀ t ∈ s.successful_trades, t.trade_id < s.trade_counter

/-- The `i`-th trade formed by `match_orders` carries id
`trade_counter + i`. -/
theorem match_orders_id_get (s : AuctionState) (bids asks : List Order)
    (r : Nat) (i : Nat) (t : Trade)
    (h : (match_orders s bids asks r).1.get? i = some t) :
    t.trade_id = s.trade_counter + i := by
  obtain ⟨bid, ask, _, _, _, ht⟩ := matchLoop_get? r _ _ s i t h
  rw [ht]

/-- The trades formed by one `match_orders` call have strictly increasing
ids, all at least the old counter and below the new counter. -/
theorem match_orders_ids (s : AuctionState) (bids asks : List Order) (r : Nat) :
    List.Pairwise (fun a b => a.trade_id < b.trade_id)
      (match_orders s bids asks r).1 ∧
    ∀ t ∈ (match_orders s bids asks r).1,
      s.trade_counter ≤ t.trade_id ∧
      t.trade_id < (match_orders s bids asks r).2.trade_counter := by
  constructor
  · rw [List.pairwise_iff_get]
    intro i j hij
    have hi := match_orders_id_get s bids asks r i.1 _ (List.get?_eq_get i.2)
    have hj := match_orders_id_get s bids asks r j.1 _ (List.get?_eq_get j.2)
    rw [hi, hj]
    omega
  · intro t ht
    obtain ⟨i, hi⟩ := List.mem_iff_get?.mp ht
    have hident := match_orders_id_get s bids asks r i t hi
    have hlen : i < (match_orders s bids asks r).1.length := by
      rcases List.get?_eq_some.mp hi with ⟨hl, _⟩
      exact hl
    have hcnt := (match_orders_state s bids asks r).2.2.2.2.2.2
    constructor
    · omega
    · rw [hcnt]; omega

/-- Settlement preserves the trade-id invariant when the pending trades have
strictly increasing ids, all at least as large as every already recorded id
and below the counter. -/
theorem execute_trades_ids {A : Type} {M : AgentModel A}
    {env env' : Environment A} {s s' : AuctionState} {ts : List Trade}
    (h : execute_trades M env s ts = some (env', s'))
    (h1 : List.Pairwise (fun a b => a.trade_id < b.trade_id) s.successful_trades)
    (h2 : List.Pairwise (fun a b => a.trade_id < b.trade_id) ts)
    (h3 : ∀ u ∈ s.successful_trades, ∀ v ∈ ts, u.trade_id < v.trade_id)
    (h4 : ∀ u ∈ s.successful_trades, u.trade_id < s.trade_counter)
    (h5 : ∀ v ∈ ts, v.trade_id < s.trade_counter) :
    tradeIdsOK s' := by
  have hfold := execute_trades_fold M
    (fun st pend =>
      List.Pairwise (fun a b => a.trade_id < b.trade_id) st.successful_trades ∧
      List.Pairwise (fun a b => a.trade_id < b.trade_id) pend ∧
      (∀ u ∈ st.successful_trades, ∀ v ∈ pend, u.trade_id < v.trade_id) ∧
      (∀ u ∈ st.successful_trades, u.trade_id < st.trade_counter) ∧
      (∀ v ∈ pend, v.trade_id < st.trade_counter))
    (fun env0 s0 t ts0 env1 s1 hst hP => by
      obtain ⟨p1, p2, p3, p4, p5⟩ := hP
      rcases executeOne_cases hst with ⟨_, rfl⟩ | ⟨_, _, _, rfl⟩
      · exact ⟨p1, p2.of_cons,
          fun u hu v hv => p3 u hu v (List.mem_cons_of_mem _ hv), p4,
          fun v hv => p5 v (List.mem_cons_of_mem _ hv)⟩
      · refine ⟨?_, p2.of_cons, ?_, ?_, ?_⟩
        · refine List.pairwise_append.mpr ⟨p1, List.pairwise_singleton _ _, ?_⟩
          intro u hu v hv
          rw [List.mem_singleton] at hv
          rw [hv]
          exact p3 u hu t (List.mem_cons_self _ _)
        · intro u hu v hv
          rcases List.mem_append.mp hu with hu | hu
          · exact p3 u hu v (List.mem_cons_of_mem _ hv)
          · rw [List.mem_singleton] at hu
            subst hu
            exact (List.pairwise_cons.mp p2).1 v hv
        · intro u hu
          rcases List.mem_append.mp hu with hu | hu
          · exact p4 u hu
          · rw [List.mem_singleton] at hu
            rw [hu]
            exact p5 t (List.mem_cons_self _ _)
        · intro v hv
          exact p5 v (List.mem_cons_of_mem _ hv))
    ts env s env' s' h ⟨h1, h2, h3, h4, h5⟩
  exact ⟨hfold.1, hfold.2.2.2.1⟩

/-- One completed round preserves the trade-id invariant. -/
theorem runRound_ids {A : Type} {M : AgentModel A} {env env' : Environment A}
    {s s' : AuctionState} {r : Nat}
    (h : runRound M env s r = some (env', s')) (hOK : tradeIdsOK s) :
    tradeIdsOK s' := by
  obtain ⟨mi, res, env1, s1, hmi, hres, hbranch, henv, hs'⟩ := runRound_some h
  have hm := match_orders_state { s with current_round := r }
    (collectBids M mi env.buyers) (collectAsks M mi env.sellers) r
  have hmid := match_orders_ids { s with current_round := r }
    (collectBids M mi env.buyers) (collectAsks M mi env.sellers) r
  have hproj : ({ s with current_round := r } : AuctionState).trade_counter =
      s.trade_counter := rfl
  have hOK1 : tradeIdsOK s1 := by
    rcases hbranch with ⟨_, _, rfl⟩ | ⟨_, hex⟩
    · rw [hres]
      constructor
      · rw [hm.1]; exact hOK.1
      · intro t ht
        rw [hm.1] at ht
        rw [hm.2.2.2.2.2.2, hproj]
        have := hOK.2 t ht
        omega
    · rw [hres] at hex
      refine execute_trades_ids hex ?_ hmid.1 ?_ ?_ ?_
      · rw [hm.1]; exact hOK.1
      · intro u hu v hv
        rw [hm.1] at hu
        have hub := hOK.2 u hu
        have hvb := (hmid.2 v hv).1
        rw [hproj] at hvb
        omega
      · intro u hu
        rw [hm.1] at hu
        rw [hm.2.2.2.2.2.2, hproj]
        have := hOK.2 u hu
        omega
      · intro v hv
        exact (hmid.2 v hv).2
  rw [hs']
  exact ⟨hOK1.1, hOK1.2⟩

/-- C8: across a whole auction run the trade ids of `successful_trades`,
taken in formation order, are strictly increasing, hence unique. -/
theorem run_auction_trade_ids {A : Type} (M : AgentModel A)
    (env : Environment A) (s : AuctionState)
    (env' : Environment A) (s' : AuctionState)
    (hOK : tradeIdsOK s)
    (h : run_auction M env s = some (env', s')) :
    List.Pairwise (fun a b => a.trade_id < b.trade_id) s'.successful_trades ∧
    (s'.successful_trades.map (fun t => t.trade_id)).Nodup := by
  have hOK' : tradeIdsOK s' := by
    rw [run_auction] at h
    by_cases hend : s.max_rounds ≤ s.current_round
    · rw [if_pos hend] at h
      simp only [Option.some.injEq, Prod.mk.injEq] at h
      rw [← h.2]
      exact hOK
    · rw [if_neg hend] at h
      exact runRounds_pres tradeIdsOK
        (fun env0 s0 r env1 s1 h1 hP => runRound_ids h1 hP)
        _ env s env' s' h hOK
  refine ⟨hOK'.1, ?_⟩
  have hne : List.Pairwise (fun a b : Trade => a.trade_id ≠ b.trade_id)
      s'.successful_trades := hOK'.1.imp (fun hlt => Nat.ne_of_lt hlt)
  exact List.pairwise_map.mpr hne

/-- An agent model in which buyer `0` (goods 0, first-unit value 100) always
bids 100 and seller `1` (one unit, cost 80) always asks 80. -/
def actModel : AgentModel Nat where
  id := fun a => a
  goods := fun a => if a = 0 then 0 else 1
  sched := fun a =>
    if a = 0 then { values := [(1, 100)] } else { values := [(1, 80)] }
  generate_bid := fun a _ =>
    if a = 0 then
      some { agent_id := 0, price := 100, quantity := 1, base_value := 100,
             base_cost := 0 }
    else
      some { agent_id := 1, price := 80, quantity := 1, base_value := 0,
             base_cost := 80 }
  finalize_trade := fun a _ => a

/-- The environment with buyer `0` and seller `1`. -/
def actEnv : Environment Nat := { buyers := [0], sellers := [1] }

/-- The single trade formed in the active one-round run. -/
def actTrade : Trade :=
  { trade_id := 0, buyer_id := 0, seller_id := 1, quantity := 1, price := 90,
    buyer_value := 100, seller_cost := 80, round := 1 }

/-- The final state of the active one-round run. -/
def actFinal : AuctionState :=
  { max_rounds := 1
    current_round := 2
    successful_trades := [actTrade]
    total_surplus_extracted := 20
    average_prices := [90]
    order_book := [{ price := 90, shares := 1, total := 90 }]
    trade_history := [actTrade]
    trade_counter := 1 }

/-- The active one-round run matches and settles exactly one trade at the
midpoint price 90 and ends in `actFinal`. -/
theorem act_run :
    run_auction actModel actEnv (initState 1) = some (actEnv, actFinal) := by
  simp [run_auction, runRounds, runRound, get_market_info, initState, actModel,
    actEnv, collectBids, collectAsks, buyerEligible, get_value, dictGet,
    match_orders, sortBids, sortAsks, List.insertionSort, matchLoop,
    execute_trades, executeOne, get_agent, Environment.agents, finalize_for,
    actTrade, actFinal]
  norm_num

/-- C8 witness: the invariant theorem applied to the active one-round run,
whose history holds the single trade with id 0. -/
theorem run_auction_trade_ids_check :
    List.Pairwise (fun a b => a.trade_id < b.trade_id)
      actFinal.successful_trades ∧
    (actFinal.successful_trades.map (fun t => t.trade_id)).Nodup :=
  run_auction_trade_ids actModel actEnv (initState 1) actEnv actFinal
    ⟨List.Pairwise.nil, by simp [initState]⟩ act_run

end MarketAgents
